import Mathlib

/- Verification development for the levari vinyl-player core (src/main.rs).

The embedding below translates the program's data model and the operations
the checked properties concern: the catalog loader (load_albums, load_album,
natural_order, the duration estimate), the session clock (playback_start,
pause_duration, paused, pause_start, and the elapsed-time computation of
render_vinyl_player), and the playback-session operations (insert_album,
eject_current_album, skip_to_song, increase_speed, decrease_speed,
toggle_pause, next_bookmark, prev_bookmark).

Modelling conventions, stated once:
  * Monotonic instants (std::time::Instant) are natural numbers; a Duration
    is a natural number in the same unit.  Instant::elapsed and
    saturating_duration_since / saturating_sub become truncated Nat
    subtraction, which is exactly their saturating semantics.  The final
    Duration::as_secs of the renderer is the identity under this choice of
    unit.  Each operation receives the single instant `now` at which it runs.
  * The rodio audio objects are external collaborators; a Sink is modelled by
    the calls the program makes on it: the queue of appended sources, the
    volume, the speed (rodio sinks start at speed 1.0 and this program never
    calls set_speed) and the play/pause flag.  Whether File::open plus
    Decoder::new succeeds for a source path is an oracle `dec : String → Bool`
    passed to the operations that build a channel; a failing path makes the
    Rust `?` operator return the error to the caller, leaving every mutation
    already performed in place, which the functions below reproduce by
    returning the state reached at the point of failure.  Sink::try_new
    itself is not a per-file decode and is modelled as succeeding.
  * f32 literals and arithmetic are modelled exactly over ℚ (33.33 is
    3333/100), exact for everything the properties touch; the f64 pipeline
    of the duration estimate is modelled bit-faithfully at durationOfSize.
    Rust string comparison is byte-wise over UTF-8, which coincides with
    code-point lexicographic comparison, modelled on List Char; the title
    regex's [A-Za-z] is ASCII and its \d is the Unicode class Nd (see
    ndRangeStarts), and the case folding used on cover names and extensions
    is modelled on ASCII, where it agrees with str::to_lowercase for every
    string the conditions compare against.
  * Footer messages are abstracted by the inductive Msg, one constructor per
    format string of the source, carrying the formatted data.
  * Rust indexing albums[i] panics when out of range; the embedding uses
    List.getD with a default element, and every theorem about such an access
    is stated for in-range indices.
  * The UI-only fields title_phrase and pending_g and the ListState offsets
    are omitted; the selected positions of the two lists are kept
    (album_sel, song_sel) since skip_to_song reads song_sel. -/

/-- Footer status messages, one constructor per format string the embedded
operations produce. -/
inductive Msg where
  | inserted (name : String)
  | ejected (name : String)
  | skipped (title : String)
  | speedMsg (rpm : ℚ)
  | pausedMsg
  | playingMsg
  | noAlbumInserted
  | jumpedBookmark (name : String)
  deriving DecidableEq

/-- Focus options for the three boxes (enum Focus). -/
inductive Focus where
  | Vinyl
  | Albums
  | SongList
  deriving DecidableEq, Inhabited

/-- Application modes (enum AppState). -/
inductive AppState where
  | Browsing
  | Playing
  | SongListMode
  deriving DecidableEq, Inhabited

/-- A song (struct Song): title from the filename stem, estimated duration in
seconds, and the source path (an opaque location handle). -/
structure Song where
  title : String
  duration : Nat
  path : String
  deriving DecidableEq, Inhabited

/-- An album (struct Album). -/
structure Album where
  name : String
  cover : Option String
  songs : List Song
  bookmarked : Bool
  deriving DecidableEq, Inhabited

/-- An audio channel (rodio Sink) as the program uses it: the appended
sources in order, the volume, the speed and the play/pause flag.  A fresh
sink has volume 1, speed 1 and starts unpaused; this program never calls
set_speed, so the speed of every sink stays 1. -/
structure Sink where
  queue : List Song
  volume : ℚ
  speed : ℚ
  playing : Bool
  deriving DecidableEq, Inhabited

/-- A fresh sink (Sink::try_new on the output stream handle). -/
def Sink.new : Sink :=
  { queue := [], volume := 1, speed := 1, playing := true }

/-- Application state (struct App), with the UI-only fields omitted as
described in the header comment. -/
structure App where
  albums : List Album
  state : AppState
  selected_index : Nat
  playing_album : Option Nat
  playback_start : Option Nat
  pause_duration : Nat
  paused : Bool
  pause_start : Option Nat
  album_sel : Option Nat
  song_sel : Option Nat
  current_sink : Option Sink
  current_message : Option Msg
  message_time : Option Nat
  volume : ℚ
  current_song_index : Nat
  focus : Focus
  playback_speed : ℚ
  deriving DecidableEq, Inhabited

/-- Helper to set a transient message in the footer (App::set_message). -/
def set_message (a : App) (now : Nat) (m : Msg) : App :=
  { a with current_message := some m, message_time := some now }

/-- Round a rational to the nearest integer with ties to even: the rounding
of every IEEE-754 binary64 operation and of Rust's u64-to-f64 conversion. -/
def roundTiesEven (m : ℚ) : ℤ :=
  if Int.fract m < 1 / 2 then ⌊m⌋
  else if 1 / 2 < Int.fract m then ⌊m⌋ + 1
  else if ⌊m⌋ % 2 = 0 then ⌊m⌋ else ⌊m⌋ + 1

/-- The exact value of the IEEE-754 binary64 number nearest to a positive
rational: the scaled significand x / 2^(e − 52), where e is the floor
base-2 logarithm of x, is rounded ties-to-even to an integer and scaled
back.  This is f64 nearest-rounding for every value this development
applies it to — positive values between 1/40000 and 2^64, well inside the
normal range, with no overflow.  A non-positive argument, which never
arises here, is mapped to 0. -/
def f64round (x : ℚ) : ℚ :=
  if x ≤ 0 then 0
  else (roundTiesEven (x / 2 ^ (Int.log 2 x - 52)) : ℚ) * 2 ^ (Int.log 2 x - 52)

/-- Estimated duration in seconds of an audio file of the given byte size
(load_album): the source computes `(file_size as f64 / 40_000.0).round() as
u64` for a positive size and 0 otherwise.  Each f64 step is modelled
exactly: the u64-to-f64 conversion rounds the integer to the nearest
double (ties to even), dividing by the exactly representable constant
40000.0 correctly rounds the true quotient, and f64::round then rounds half
away from zero, which on these positive values is the floor of the value
plus one half; the rounded result is an integer below 2^52, hence exactly
representable, and the final u64 cast truncates nothing. -/
def durationOfSize (size : Nat) : Nat :=
  if 0 < size then (⌊f64round (f64round (size : ℚ) / 40000) + 1 / 2⌋).toNat
  else 0

/-- Effective elapsed seconds of the current song as render_vinyl_player
computes it: 0 without a start instant; otherwise the raw elapsed time (up to
pause_start when paused, up to now when playing) minus the accumulated paused
time, every subtraction saturating. -/
def current_elapsed (now : Nat) (a : App) : Nat :=
  match a.playback_start with
  | none => 0
  | some start =>
    let base := if a.paused then (a.pause_start.getD start) - start else now - start
    base - a.pause_duration

/-- Sum of the durations of the songs before the current one plus the
current song's effective elapsed time (the Elapsed field of
render_vinyl_player). -/
def total_elapsed (now : Nat) (a : App) : Nat :=
  (((a.albums.getD (a.playing_album.getD 0) default).songs.take
      a.current_song_index).map Song.duration).sum + current_elapsed now a

/-- Toggle play/pause (App::toggle_pause): with a live sink, resuming adds
the pause interval to pause_duration and clears pause_start, pausing records
pause_start := now; without a sink only a message is set. -/
def toggle_pause (now : Nat) (a : App) : App :=
  match a.current_sink with
  | some s =>
    if a.paused then
      let pd := match a.pause_start with
        | some ps => a.pause_duration + (now - ps)
        | none => a.pause_duration
      set_message { a with
        current_sink := some { s with playing := true }
        pause_duration := pd
        paused := false
        pause_start := none } now .playingMsg
    else
      set_message { a with
        current_sink := some { s with playing := false }
        paused := true
        pause_start := some now } now .pausedMsg
  | none => set_message a now .noAlbumInserted

/-- Lowercase an ASCII letter (Rust str::to_lowercase, restricted to the
ASCII data the checked properties concern: cover filenames and extensions). -/
def asciiLower (c : Char) : Char :=
  if 'A' ≤ c && c ≤ 'Z' then Char.ofNat (c.toNat + 32) else c

/-- Lowercase a string character-wise (ASCII). -/
def lowerStr (s : String) : String := String.mk (s.data.map asciiLower)

/-- A directory entry that is a file: its name and its byte size
(fs::metadata length). -/
structure FileEnt where
  name : String
  size : Nat
  deriving DecidableEq, Inhabited

/-- A directory tree (the filesystem as fs::read_dir enumerates it): the
directory's own name, its direct file entries in enumeration order, and its
direct subdirectories in enumeration order.  The source iterates the entries
twice filtering is_file and once filtering is_dir, so keeping the two kinds
in separate ordered lists is faithful. -/
inductive FsDir where
  | mk (dname : String) (files : List FileEnt) (subs : List FsDir)

/-- Name of the directory. -/
def FsDir.dname : FsDir → String
  | .mk n _ _ => n

/-- Direct file entries of the directory. -/
def FsDir.files : FsDir → List FileEnt
  | .mk _ fs _ => fs

/-- Direct subdirectories of the directory. -/
def FsDir.subs : FsDir → List FsDir
  | .mk _ _ ds => ds

/-- Position of the last dot of a filename that sits after position 0, if
any: the split point of Rust's Path::file_stem / Path::extension (a name
whose only dot is leading, like ".mp3", has no extension). -/
def lastDotPos (cs : List Char) : Option Nat :=
  ((List.range cs.length).filter
    (fun i => decide (1 ≤ i) && (cs.getD i ' ' == '.'))).getLast?

/-- Filename stem (Rust Path::file_stem on a plain filename). -/
def rustStem (name : String) : String :=
  match lastDotPos name.data with
  | none => name
  | some i => String.mk (name.data.take i)

/-- Filename extension (Rust Path::extension on a plain filename). -/
def rustExt? (name : String) : Option String :=
  (lastDotPos name.data).map (fun i => String.mk (name.data.drop (i + 1)))

/-- Whether a lowercased extension is in the audio whitelist of load_album. -/
def isAudioExt (e : String) : Bool :=
  e == "mp3" || e == "flac" || e == "wav" || e == "ogg"

/-- Whether a file is a cover reference: its name, lowercased, starts with
"cover." (the check of load_album's first loop, which is also how claim C5
words the cover condition). -/
def fileIsCover (f : FileEnt) : Bool :=
  "cover.".data.isPrefixOf (lowerStr f.name).data

/-- Whether a file qualifies as a track: its extension, lowercased, is in
the audio whitelist (claim C5's wording of the track condition). -/
def fileIsAudio (f : FileEnt) : Bool :=
  match rustExt? f.name with
  | none => false
  | some e => isAudioExt (lowerStr e)

/-- The Song a qualifying file yields in load_album's second loop: title
from the stem, duration estimated from the byte size, the path kept as the
source location. -/
def songOfFile? (f : FileEnt) : Option Song :=
  match rustExt? f.name with
  | none => none
  | some e =>
    if isAudioExt (lowerStr e) then
      some { title := rustStem f.name, duration := durationOfSize f.size, path := f.name }
    else none

/-- ASCII alphabetic class of the title regex (the class [A-Za-z], stated on
code points: 65-90 and 97-122). -/
def isAsciiAlpha (c : Char) : Bool :=
  (65 ≤ c.toNat && c.toNat ≤ 90) || (97 ≤ c.toNat && c.toNat ≤ 122)

/-- ASCII decimal digit class (code points 48-57): the digits
str::parse::<u64> accepts. -/
def isAsciiDigit (c : Char) : Bool :=
  48 ≤ c.toNat && c.toNat ≤ 57

/-- Start code points of the ten-code-point blocks (digits 0 through 9 of
one script) whose union is the Unicode general category Nd, the class the
regex crate's \d matches with its default Unicode semantics.  The table is
Unicode 15.0, the version shipped by regex crate releases contemporary with
this source; Unicode versions differ from one another only in digit blocks
of scripts newer than any title the checked properties involve, and every
block of every version is ten consecutive code points in digit order. -/
def ndRangeStarts : List Nat :=
  [48, 1632, 1776, 1984, 2406, 2534, 2662, 2790, 2918, 3046, 3174, 3302,
   3430, 3558, 3664, 3792, 3872, 4160, 4240, 6112, 6160, 6470, 6608, 6784,
   6800, 6992, 7088, 7232, 7248, 42528, 43216, 43264, 43472, 43504, 43600,
   44016, 65296, 66720, 68912, 69734, 69872, 69942, 70096, 70384, 70736,
   70864, 71248, 71360, 71472, 71904, 72016, 72784, 73040, 73120, 73552,
   92768, 92864, 93008, 120782, 120792, 120802, 120812, 120822, 123200,
   123632, 124144, 125264, 130032]

/-- Unicode decimal digit class of the title regex: \d in the regex crate
is \p{Nd} by default, any decimal digit of any script, not only ASCII. -/
def isNd (c : Char) : Bool :=
  ndRangeStarts.any (fun s => s ≤ c.toNat && c.toNat ≤ s + 9)

/-- Value of a run of ASCII decimal digits. -/
def digitsVal (cs : List Char) : Nat :=
  cs.foldl (fun n c => 10 * n + (c.toNat - 48)) 0

/-- Value the source obtains from a digit run: it parses with
str::parse::<u64>, which succeeds exactly on a run of ASCII digits whose
value fits in 64 bits — a run containing a non-ASCII decimal digit, or
whose value is 2^64 or more, fails to parse — and the source maps a failed
parse to 0 with unwrap_or(0). -/
def u64OrZero (cs : List Char) : Nat :=
  if cs.all isAsciiDigit && digitsVal cs < 2 ^ 64 then digitsVal cs else 0

/-- Captures of the anchored regex of natural_order on a title: the leading
ASCII-alphabetic prefix (greedy, possibly empty) and the immediately
following nonempty run of Unicode decimal digits, or none when the title
does not match.  Greedy matching of the disjoint classes is span-splitting:
a shorter alphabetic prefix can never expose a digit, so the regex matches
exactly when an Nd digit follows the maximal leading alphabetic run. -/
def leadingMatch? (cs : List Char) : Option (List Char × List Char) :=
  let p := cs.takeWhile isAsciiAlpha
  let rest := cs.dropWhile isAsciiAlpha
  let n := rest.takeWhile isNd
  if n = [] then none else some (p, n)

/-- Lexicographic comparison of character lists by code point; Rust's
byte-wise comparison of UTF-8 strings orders identically. -/
def lexCmp : List Char → List Char → Ordering
  | [], [] => .eq
  | [], _ :: _ => .lt
  | _ :: _, [] => .gt
  | a :: xs, b :: ys =>
    match compare a b with
    | .eq => lexCmp xs ys
    | o => o

/-- Comparison of two titles (fn natural_order, on the titles): if both
match the anchored prefix-digits regex, compare prefixes lexicographically,
then the parsed digit runs; otherwise compare the raw titles. -/
def natOrderTitle (a b : String) : Ordering :=
  match leadingMatch? a.data, leadingMatch? b.data with
  | some (ap, an), some (bp, bn) =>
    (match lexCmp ap bp with
     | .eq => compare (u64OrZero an) (u64OrZero bn)
     | o => o)
  | _, _ => lexCmp a.data b.data

/-- The track comparator (fn natural_order). -/
def natural_order (a b : Song) : Ordering :=
  natOrderTitle a.title b.title

/-- Insert an element into a list sorted by a comparator, after every
element that does not compare greater (the placement a stable sort gives). -/
def insertCmp {α : Type} (cmp : α → α → Ordering) (x : α) : List α → List α
  | [] => [x]
  | y :: ys =>
    match cmp x y with
    | .lt => x :: y :: ys
    | _ => y :: insertCmp cmp x ys

/-- Stable sort by a comparator (slice::sort_by: Rust's sort is stable, and
a stable insertion sort computes the same list for the total, transitive
comparators used here). -/
def sortByCmp {α : Type} (cmp : α → α → Ordering) : List α → List α
  | [] => []
  | x :: xs => insertCmp cmp x (sortByCmp cmp xs)

/-- Load a single album's info from a directory (fn load_album): the first
cover file in enumeration order, the qualifying tracks sorted by
natural_order, and the bookmark flag cleared. -/
def load_album (d : FsDir) : Album :=
  { name := d.dname
    cover := (d.files.find? fileIsCover).map (fun f => f.name)
    songs := sortByCmp natural_order (d.files.filterMap songOfFile?)
    bookmarked := false }

/-- Recursively load all albums from a directory (fn load_albums): a
directory whose candidate has a cover or at least one song is emitted as a
single leaf album; otherwise the loader recurses into the direct
subdirectories and concatenates the results. -/
def load_albums : FsDir → List Album
  | .mk n fs subs =>
    let cand := load_album (.mk n fs subs)
    if cand.cover.isSome || !cand.songs.isEmpty then [cand]
    else (subs.attach.map (fun d => load_albums d.1)).flatten
decreasing_by
  have := List.sizeOf_lt_of_mem d.2
  simp only [FsDir.mk.sizeOf_spec]
  omega

/-- Append a list of sources to a sink (the append loops of insert_album and
skip_to_song): File::open plus Decoder::new is the oracle dec; the first
failing path makes the Rust ? operator return its error, the partially
filled local sink being dropped. -/
def appendSongs (dec : String → Bool) : List Song → Sink → Except String Sink
  | [], s => .ok s
  | song :: rest, s =>
    if dec song.path then appendSongs dec rest { s with queue := s.queue ++ [song] }
    else .error song.path

/-- Eject whatever album is currently playing (App::eject_current_album):
returns to browsing, clears the clock fields, drops the sink and reports;
a no-op when nothing is playing.  The current_song_index field is not
touched by the source. -/
def eject_current_album (now : Nat) (a : App) : App :=
  match a.playing_album with
  | none => a
  | some idx =>
    set_message { a with
      state := .Browsing
      playing_album := none
      playback_start := none
      pause_duration := 0
      paused := false
      pause_start := none
      current_sink := none } now (.ejected ((a.albums.getD idx default).name))

/-- Body of App::insert_album after its early returns, in source order:
playing_album and state are set first, then the sink is built by appending
every song — a failing source aborts here, the error is returned with the
mutations made so far in place and the partial sink dropped — and only on
success are the clock fields reset, the song selection reset, the new sink
installed and the message set.  The pair's second component is the error
the function propagates with ?, if any. -/
def insert_build (now : Nat) (dec : String → Bool) (a0 : App) : App × Option String :=
  let a1 := { a0 with playing_album := some a0.selected_index, state := AppState.Playing }
  let album := a1.albums.getD a1.selected_index default
  match appendSongs dec album.songs Sink.new with
  | .error e => (a1, some e)
  | .ok s =>
    let s2 := { s with volume := a1.volume, playing := true }
    let a2 := { a1 with
      playback_start := some now
      pause_duration := 0
      paused := false
      pause_start := none
      current_song_index := 0
      song_sel := some 0
      current_sink := some s2 }
    (set_message a2 now (.inserted album.name), none)

/-- The dispatch of App::insert_album over its two early returns: a
different playing album is ejected first and the build runs; the same album
returns immediately; otherwise the build runs directly. -/
def insert_album (now : Nat) (dec : String → Bool) (a : App) : App × Option String :=
  match a.playing_album with
  | some cur =>
    if cur ≠ a.selected_index then insert_build now dec (eject_current_album now a)
    else (a, none)
  | none => insert_build now dec a

/-- State an Insert operation has reached just before it builds the channel:
the previously playing album, when different from the selection, has already
been ejected. -/
def preEject (now : Nat) (a : App) : App :=
  match a.playing_album with
  | some cur => if cur ≠ a.selected_index then eject_current_album now a else a
  | none => a

/-- Skip to the selected song in the current album (App::skip_to_song): a
not-inserted or different selection is auto-inserted first (a failure there
propagates); an out-of-range song index returns silently; otherwise a fresh
sink is built from the chosen song onward (a failure propagates, the state
mutations all happening after the successful build) and the clock and index
are reset. -/
def skip_to_song (now : Nat) (dec : String → Bool) (a : App) : App × Option String :=
  let step1 : App × Option String :=
    if a.playing_album ≠ some a.selected_index then insert_album now dec a else (a, none)
  match step1 with
  | (a1, some e) => (a1, some e)
  | (a1, none) =>
    let album := a1.albums.getD a1.selected_index default
    let song_index := a1.song_sel.getD 0
    if song_index ≥ album.songs.length then (a1, none)
    else
      match appendSongs dec (album.songs.drop song_index) Sink.new with
      | .error e => (a1, some e)
      | .ok s =>
        let s2 := { s with volume := a1.volume, playing := true }
        let a2 := { a1 with
          current_sink := some s2
          state := AppState.Playing
          playback_start := some now
          pause_duration := 0
          paused := false
          pause_start := none
          current_song_index := song_index }
        (set_message a2 now (.skipped ((album.songs.getD song_index default).title)), none)

/-- Increase the simulated playback speed (App::increase_speed): add 1.0 RPM
capped at 78.0 and report; nothing else is touched. -/
def increase_speed (now : Nat) (a : App) : App :=
  let sp := min (a.playback_speed + 1) 78
  set_message { a with playback_speed := sp } now (.speedMsg sp)

/-- Decrease the simulated playback speed (App::decrease_speed): subtract
1.0 RPM floored at 33.33 and report; nothing else is touched. -/
def decrease_speed (now : Nat) (a : App) : App :=
  let sp := max (a.playback_speed - 1) (3333 / 100)
  set_message { a with playback_speed := sp } now (.speedMsg sp)

/-- Whether the album at an index is bookmarked (albums[i].bookmarked). -/
def bookmarkedAt (albums : List Album) (i : Nat) : Bool :=
  (albums.getD i default).bookmarked

/-- Index the forward bookmark loop of App::next_bookmark selects: the first
bookmarked index among (start + offset) mod len for offset = 1..len. -/
def next_bookmark_idx (albums : List Album) (start : Nat) : Option Nat :=
  ((List.range albums.length).map
    (fun k => (start + (k + 1)) % albums.length)).find? (bookmarkedAt albums)

/-- Index the backward bookmark loop of App::prev_bookmark selects: the
first bookmarked index among (start + len − offset) mod len for
offset = 1..len. -/
def prev_bookmark_idx (albums : List Album) (start : Nat) : Option Nat :=
  ((List.range albums.length).map
    (fun k => (start + albums.length - (k + 1)) % albums.length)).find? (bookmarkedAt albums)

/-- Jump to the next bookmarked album with wrap-around (App::next_bookmark);
nothing changes when focus is elsewhere, the catalog is empty or no album is
bookmarked. -/
def next_bookmark (now : Nat) (a : App) : App :=
  if a.focus ≠ Focus.Albums ∨ a.albums = [] then a
  else
    match next_bookmark_idx a.albums a.selected_index with
    | some i =>
      set_message { a with selected_index := i, album_sel := some i } now
        (.jumpedBookmark ((a.albums.getD i default).name))
    | none => a

/-- Jump to the previous bookmarked album with wrap-around
(App::prev_bookmark). -/
def prev_bookmark (now : Nat) (a : App) : App :=
  if a.focus ≠ Focus.Albums ∨ a.albums = [] then a
  else
    match prev_bookmark_idx a.albums a.selected_index with
    | some i =>
      set_message { a with selected_index := i, album_sel := some i } now
        (.jumpedBookmark ((a.albums.getD i default).name))
    | none => a

/-- Concrete session in the paused state: start instant 10, paused at
instant 17 with 3 units of accumulated pause, playing album 0. -/
def pausedApp : App :=
  { albums := []
    state := .Playing
    selected_index := 0
    playing_album := some 0
    playback_start := some 10
    pause_duration := 3
    paused := true
    pause_start := some 17
    album_sel := some 0
    song_sel := some 0
    current_sink := some Sink.new
    current_message := none
    message_time := none
    volume := 1
    current_song_index := 0
    focus := .Vinyl
    playback_speed := 3333 / 100 }

/-- Modelled from the spec (claim C4 wording): the comparator the claim
describes, with the digit runs compared as unbounded unsigned integers
rather than through the source's u64 parse with unwrap_or(0). -/
def specNatOrderTitle (a b : String) : Ordering :=
  match leadingMatch? a.data, leadingMatch? b.data with
  | some (ap, an), some (bp, bn) =>
    (match lexCmp ap bp with
     | .eq => compare (digitsVal an) (digitsVal bn)
     | o => o)
  | _, _ => lexCmp a.data b.data

/-- A song carrying only a title, for comparator examples. -/
def mkSong (t : String) : Song :=
  { title := t, duration := 0, path := t }

/-- Modelled from the spec (sections 3 and 4.3): the playback speed factor
corresponding to a stored RPM value, the RPM ratios 33:45:78 being scaled so
that 33 RPM maps to factor 1.0. -/
def speed_factor (rpm : ℚ) : ℚ :=
  rpm / 33

/-- Modelled from the spec (claim C1): an Insert whose channel build fails
aborts, leaves the session exactly in its previous state — active album,
track index, play state, clock fields and previously installed channel all
unchanged — and reports a recoverable status message. -/
def insertFailureAtomic (now : Nat) (dec : String → Bool) (a : App) : Prop :=
  (insert_album now dec a).2.isSome = true →
    (insert_album now dec a).1.playing_album = a.playing_album
    ∧ (insert_album now dec a).1.state = a.state
    ∧ (insert_album now dec a).1.current_song_index = a.current_song_index
    ∧ (insert_album now dec a).1.paused = a.paused
    ∧ (insert_album now dec a).1.playback_start = a.playback_start
    ∧ (insert_album now dec a).1.pause_duration = a.pause_duration
    ∧ (insert_album now dec a).1.pause_start = a.pause_start
    ∧ (insert_album now dec a).1.current_sink = a.current_sink
    ∧ (insert_album now dec a).1.current_message.isSome = true

/-- Modelled from the spec (claim C2): a speed change to a different factor
rebuilds the channel with the current track resumed at the current per-track
offset followed by the subsequent tracks, rendered at the new factor, and
resets the clock to that offset — a reset clears the pause state and the
accumulated pause and sets the start instant to now minus the offset. -/
def speedChangeRebuilds (now : Nat) (a : App) : Prop :=
  (increase_speed now a).playback_speed ≠ a.playback_speed →
    (∃ s : Sink,
        (increase_speed now a).current_sink = some s
        ∧ s.queue = ((a.albums.getD (a.playing_album.getD 0) default).songs.drop
            a.current_song_index)
        ∧ s.speed = speed_factor (increase_speed now a).playback_speed)
    ∧ (increase_speed now a).paused = false
    ∧ (increase_speed now a).pause_duration = 0
    ∧ (increase_speed now a).playback_start = some (now - current_elapsed now a)

/-- Modelled from the spec (claim C6): an Insert from the idle state builds
a fresh channel holding all the collection's tracks, rendered at the current
speed factor, with track index 0 and the clock reset. -/
def insertBuildsAtSpeed (now : Nat) (dec : String → Bool) (a : App) : Prop :=
  a.playing_album = none →
    ∃ s : Sink,
      (insert_album now dec a).1.current_sink = some s
      ∧ s.queue = (a.albums.getD a.selected_index default).songs
      ∧ s.speed = speed_factor a.playback_speed
      ∧ (insert_album now dec a).1.current_song_index = 0
      ∧ (insert_album now dec a).1.playback_start = some now

/-- Modelled from the spec (claim C7): a SkipTo whose target index is out of
range is a no-op that leaves the session state unchanged and reports the
condition as a non-fatal status message. -/
def skipOutOfRangeReported (now : Nat) (dec : String → Bool) (a : App) : Prop :=
  a.song_sel.getD 0 ≥ (a.albums.getD a.selected_index default).songs.length →
    (skip_to_song now dec a).1.playing_album = a.playing_album
    ∧ (skip_to_song now dec a).1.current_song_index = a.current_song_index
    ∧ (skip_to_song now dec a).1.current_sink = a.current_sink
    ∧ (skip_to_song now dec a).1.playback_start = a.playback_start
    ∧ (skip_to_song now dec a).1.state = a.state
    ∧ (skip_to_song now dec a).1.current_message.isSome = true

/-- Modelled from the spec (claim C8): an Eject from the active state tears
down the channel, returns to the idle state and clears the track index and
every clock field. -/
def ejectClearsIndex (now : Nat) (a : App) : Prop :=
  a.playing_album ≠ none →
    (eject_current_album now a).current_sink = none
    ∧ (eject_current_album now a).playing_album = none
    ∧ (eject_current_album now a).state = AppState.Browsing
    ∧ (eject_current_album now a).current_song_index = 0
    ∧ (eject_current_album now a).playback_start = none
    ∧ (eject_current_album now a).paused = false
    ∧ (eject_current_album now a).pause_start = none
    ∧ (eject_current_album now a).pause_duration = 0

/-- A concrete one-track song whose source decodes or fails as the oracle of
each scenario dictates. -/
def songT : Song :=
  { title := "t1", duration := 3, path := "t1.mp3" }

/-- A concrete one-track album. -/
def albumA : Album :=
  { name := "A", cover := none, songs := [songT], bookmarked := false }

/-- A concrete two-track album. -/
def albumB : Album :=
  { name := "B", cover := none
    songs := [{ title := "u1", duration := 2, path := "u1.mp3" },
              { title := "u2", duration := 2, path := "u2.mp3" }]
    bookmarked := false }

/-- A concrete album with a cover and no tracks. -/
def albumE : Album :=
  { name := "E", cover := some "cover.jpg", songs := [], bookmarked := false }

/-- Concrete browsing session: nothing playing, albumA selected. -/
def browsingApp : App :=
  { albums := [albumA]
    state := .Browsing
    selected_index := 0
    playing_album := none
    playback_start := none
    pause_duration := 0
    paused := false
    pause_start := none
    album_sel := some 0
    song_sel := some 0
    current_sink := none
    current_message := none
    message_time := none
    volume := 1
    current_song_index := 0
    focus := .Albums
    playback_speed := 3333 / 100 }

/-- Concrete browsing session whose speed has been raised once to 34.33 RPM. -/
def speedyApp : App :=
  { browsingApp with playback_speed := 3433 / 100 }

/-- Concrete session playing the empty album albumE with the song list
focused and its (initial) selection 0, an out-of-range index for an album
with no songs. -/
def emptyAlbumApp : App :=
  { albums := [albumE]
    state := .Playing
    selected_index := 0
    playing_album := some 0
    playback_start := some 5
    pause_duration := 0
    paused := false
    pause_start := none
    album_sel := some 0
    song_sel := some 0
    current_sink := some { queue := [], volume := 1, speed := 1, playing := true }
    current_message := none
    message_time := none
    volume := 1
    current_song_index := 0
    focus := .SongList
    playback_speed := 3333 / 100 }

/-- Concrete session that has skipped to the second track of albumB: the
current track index is 1. -/
def skippedApp : App :=
  { albums := [albumB]
    state := .Playing
    selected_index := 0
    playing_album := some 0
    playback_start := some 9
    pause_duration := 0
    paused := false
    pause_start := none
    album_sel := some 0
    song_sel := some 1
    current_sink := some { queue := (albumB.songs.drop 1), volume := 1, speed := 1, playing := true }
    current_message := none
    message_time := none
    volume := 1
    current_song_index := 1
    focus := .SongList
    playback_speed := 3333 / 100 }

/-- An album whose only relevant datum is its bookmark flag. -/
def bookAlbum (b : Bool) : Album :=
  { name := "", cover := none, songs := [], bookmarked := b }

/-- Catalog of six albums with bookmarks at indices 2 and 5 (the worked
example of the spec's test properties). -/
def alb6 : List Album :=
  [bookAlbum false, bookAlbum false, bookAlbum true,
   bookAlbum false, bookAlbum false, bookAlbum true]

/-- CLAIM C3.  The effective elapsed time of the active track equals 0 when
no start instant is set; when paused it equals (pause-start − start) −
accumulated paused duration, and when playing (now − start) − accumulated
paused duration, each subtraction saturating at 0 (stated over ℤ with
explicit max 0 so the clamping is visible); consequently, while paused, two
queries made at different real times return the same value. -/
theorem elapsed_clock_spec (a : App) (now t1 t2 st ps : Nat) :
    (a.playback_start = none → current_elapsed now a = 0)
  ∧ (a.playback_start = some st → a.paused = true → a.pause_start = some ps →
      (current_elapsed now a : ℤ) =
        max (max ((ps : ℤ) - (st : ℤ)) 0 - (a.pause_duration : ℤ)) 0)
  ∧ (a.playback_start = some st → a.paused = false →
      (current_elapsed now a : ℤ) =
        max (max ((now : ℤ) - (st : ℤ)) 0 - (a.pause_duration : ℤ)) 0)
  ∧ (a.paused = true → current_elapsed t1 a = current_elapsed t2 a) := by
  refine ⟨fun h => by simp [current_elapsed, h], fun h hp hps => ?_, fun h hp => ?_, fun hp => ?_⟩
  · simp only [current_elapsed, h, hp, hps, if_pos, Option.getD_some]
    omega
  · simp only [current_elapsed, h, hp, if_neg, Bool.false_eq_true, if_false]
    omega
  · cases hst : a.playback_start with
    | none => simp [current_elapsed, hst]
    | some start => simp [current_elapsed, hst, hp]

/-- Witness for C3 at the concrete paused state pausedApp: the paused value
is (17 − 10) − 3 = 4, and queries at real times 100 and 200 agree. -/
theorem elapsed_clock_spec_witness :
    (current_elapsed 100 pausedApp : ℤ) =
      max (max ((17 : ℤ) - 10) 0 - 3) 0
  ∧ current_elapsed 100 pausedApp = current_elapsed 200 pausedApp :=
  ⟨(elapsed_clock_spec pausedApp 100 100 200 10 17).2.1 rfl rfl rfl,
   (elapsed_clock_spec pausedApp 0 100 200 10 17).2.2.2 rfl⟩

/-- Proper bound for the floor base-2 logarithm from an upper bound. -/
theorem int_log2_le (x : ℚ) (e : ℤ) (hx : 0 < x) (h : x < 2 ^ (e + 1)) :
    Int.log 2 x ≤ e := by
  by_contra hgt
  push_neg at hgt
  have h1 : (2 : ℚ) ^ (e + 1) ≤ 2 ^ Int.log 2 x :=
    zpow_le_zpow_right₀ (by norm_num) (by omega)
  have h2 : ((2 : ℕ) : ℚ) ^ Int.log 2 x ≤ x :=
    Int.zpow_log_le_self (by norm_num) hx
  push_cast at h2
  linarith

/-- Characterization of the floor base-2 logarithm by its bracketing powers. -/
theorem int_log2_eq (x : ℚ) (e : ℤ) (hx : 0 < x) (h1 : (2 : ℚ) ^ e ≤ x)
    (h2 : x < 2 ^ (e + 1)) : Int.log 2 x = e := by
  refine le_antisymm (int_log2_le x e hx h2) ?_
  by_contra hgt
  push_neg at hgt
  have h4 : x < ((2 : ℕ) : ℚ) ^ (Int.log 2 x + 1) :=
    Int.lt_zpow_succ_log_self (by norm_num) x
  push_cast at h4
  have h5 : (2 : ℚ) ^ (Int.log 2 x + 1) ≤ 2 ^ e :=
    zpow_le_zpow_right₀ (by norm_num) (by omega)
  linarith

/-- Ties-to-even rounding is the identity on integers. -/
theorem roundTiesEven_intCast (n : ℤ) : roundTiesEven (n : ℚ) = n := by
  norm_num [roundTiesEven, Int.fract_intCast]

/-- Ties-to-even rounding moves a rational by at most one half. -/
theorem roundTiesEven_err (m : ℚ) : |(roundTiesEven m : ℚ) - m| ≤ 1 / 2 := by
  have h0 : 0 ≤ Int.fract m := Int.fract_nonneg m
  have h1 : Int.fract m < 1 := Int.fract_lt_one m
  have hm : (⌊m⌋ : ℚ) + Int.fract m = m := Int.floor_add_fract m
  rw [abs_le]
  unfold roundTiesEven
  split_ifs with hlt hgt hev
  · constructor <;> linarith
  · push_cast
    constructor <;> linarith
  · have he : Int.fract m = 1 / 2 := le_antisymm (not_lt.1 hgt) (not_lt.1 hlt)
    constructor <;> linarith
  · have he : Int.fract m = 1 / 2 := le_antisymm (not_lt.1 hgt) (not_lt.1 hlt)
    push_cast
    constructor <;> linarith

/-- An f64 rounding moves a positive rational by at most half an ulp,
2^(e − 53) at magnitude e. -/
theorem f64round_err (x : ℚ) (hx : 0 < x) :
    |f64round x - x| ≤ 2 ^ (Int.log 2 x - 53) := by
  rw [f64round, if_neg (not_le.2 hx)]
  have hu : (0 : ℚ) < 2 ^ (Int.log 2 x - 52) := zpow_pos (by norm_num) _
  have herr := roundTiesEven_err (x / 2 ^ (Int.log 2 x - 52))
  have hexp : (2 : ℚ) ^ (Int.log 2 x - 53) = 1 / 2 * 2 ^ (Int.log 2 x - 52) := by
    have h1 : Int.log 2 x - 53 = -1 + (Int.log 2 x - 52) := by ring
    rw [h1, zpow_add₀ (two_ne_zero), zpow_neg_one]
    ring
  have heq : (roundTiesEven (x / 2 ^ (Int.log 2 x - 52)) : ℚ) * 2 ^ (Int.log 2 x - 52) - x
      = ((roundTiesEven (x / 2 ^ (Int.log 2 x - 52)) : ℚ) - x / 2 ^ (Int.log 2 x - 52))
        * 2 ^ (Int.log 2 x - 52) := by
    rw [sub_mul, div_mul_cancel₀ _ hu.ne']
  rw [heq, abs_mul, abs_of_pos hu, hexp]
  exact mul_le_mul_of_nonneg_right herr hu.le

/-- A positive rational that is an integer multiple of its own ulp — an
exactly representable value — is fixed by the f64 rounding. -/
theorem f64round_eq_self (x : ℚ) (hx : 0 < x) (n : ℤ)
    (hn : x = (n : ℚ) * 2 ^ (Int.log 2 x - 52)) : f64round x = x := by
  have hu : (0 : ℚ) < 2 ^ (Int.log 2 x - 52) := zpow_pos (by norm_num) _
  rw [f64round, if_neg (not_le.2 hx)]
  set e : ℤ := Int.log 2 x - 52 with he
  have hdiv : x / 2 ^ e = (n : ℚ) := by
    rw [hn, mul_div_assoc, div_self hu.ne', mul_one]
  rw [hdiv, roundTiesEven_intCast, ← hn]

/-- Integers below 2^53 convert to f64 exactly. -/
theorem f64round_natCast (s : Nat) (h1 : 0 < s) (h2 : s < 2 ^ 53) :
    f64round (s : ℚ) = s := by
  have hx : (0 : ℚ) < s := by exact_mod_cast h1
  have hlt : (s : ℚ) < 2 ^ ((52 : ℤ) + 1) := by
    have hc : ((s : ℕ) : ℚ) < ((2 ^ 53 : ℕ) : ℚ) := by exact_mod_cast h2
    have hh : (52 : ℤ) + 1 = ((53 : ℕ) : ℤ) := by norm_num
    rw [hh, zpow_natCast]
    push_cast at hc
    exact hc
  have hlog : Int.log 2 (s : ℚ) ≤ 52 := int_log2_le _ _ hx hlt
  refine f64round_eq_self _ hx ((s : ℤ) * 2 ^ (52 - Int.log 2 (s : ℚ)).toNat) ?_
  push_cast
  rw [← zpow_natCast (2 : ℚ) (52 - Int.log 2 (s : ℚ)).toNat,
    Int.toNat_of_nonneg (by omega), mul_assoc, ← zpow_add₀ (two_ne_zero)]
  have hz : 52 - Int.log 2 (s : ℚ) + (Int.log 2 (s : ℚ) - 52) = 0 := by ring
  rw [hz, zpow_zero, mul_one]

/-- Rounding the exact quotient by 40000 half-up is a shifted natural
division. -/
theorem round_natCast_div40000 (t : Nat) :
    round ((t : ℚ) / 40000) = ((t + 20000) / 40000 : ℕ) := by
  rw [round_eq]
  have h : (t : ℚ) / 40000 + 1 / 2 = ((t + 20000 : ℕ) : ℚ) / ((40000 : ℕ) : ℚ) := by
    push_cast
    ring
  rw [h, Rat.floor_natCast_div_natCast]
  omega

/-- Fractional part of the exact quotient by 40000. -/
theorem fract_natCast_div40000 (t : Nat) :
    Int.fract ((t : ℚ) / 40000) = ((t % 40000 : ℕ) : ℚ) / 40000 := by
  have hfloor : ⌊(t : ℚ) / 40000⌋ = ((t / 40000 : ℕ) : ℤ) := by
    have h : (t : ℚ) / 40000 = ((t : ℕ) : ℚ) / ((40000 : ℕ) : ℚ) := by
      push_cast
      ring
    rw [h, Rat.floor_natCast_div_natCast]
    omega
  have hs : (t : ℚ) = 40000 * ((t / 40000 : ℕ) : ℚ) + ((t % 40000 : ℕ) : ℚ) := by
    exact_mod_cast (Nat.div_add_mod t 40000).symm
  simp only [Int.fract, hfloor]
  rw [hs, Int.cast_natCast]
  ring

/-- For byte sizes below 2^53 the correctly rounded f64 division by 40000
rounds half-up to the same integer as the exact quotient: the quotient of an
integer is never closer than 1/40000 to a half-integer it does not equal, a
half-integer quotient is exactly representable, and the division error is at
most 2^(-16) < 1/40000 at these magnitudes. -/
theorem f64_division_round (s : Nat) (h1 : 0 < s) (h2 : s < 2 ^ 53) :
    ⌊f64round ((s : ℚ) / 40000) + 1 / 2⌋ = ⌊(s : ℚ) / 40000 + 1 / 2⌋ := by
  have hts : (0 : ℚ) < (s : ℚ) / 40000 := by positivity
  set t : ℚ := (s : ℚ) / 40000 with ht
  have he37 : Int.log 2 t ≤ 37 := by
    apply int_log2_le _ _ hts
    rw [ht, div_lt_iff₀ (by norm_num : (0 : ℚ) < 40000)]
    have hs53 : (s : ℚ) < ((2 ^ 53 : ℕ) : ℚ) := by exact_mod_cast h2
    have hh : (37 : ℤ) + 1 = ((38 : ℕ) : ℤ) := by norm_num
    rw [hh, zpow_natCast]
    push_cast at hs53
    calc (s : ℚ) < 2 ^ 53 := hs53
      _ ≤ 2 ^ 38 * 40000 := by norm_num
  have herr2 : |f64round t - t| ≤ 1 / 65536 := by
    calc |f64round t - t| ≤ 2 ^ (Int.log 2 t - 53) := f64round_err t hts
      _ ≤ 2 ^ (-(16 : ℤ)) := zpow_le_zpow_right₀ (by norm_num) (by omega)
      _ = 1 / 65536 := by
          have hh : (16 : ℤ) = ((16 : ℕ) : ℤ) := by norm_num
          rw [zpow_neg, hh, zpow_natCast]
          norm_num
  by_cases hmod : s % 40000 = 20000
  · have hfr : Int.fract t = 1 / 2 := by
      rw [ht, fract_natCast_div40000, hmod]
      norm_num
    have hflo : (⌊t⌋ : ℚ) + 1 / 2 = t := by
      have hh := Int.floor_add_fract t
      rw [hfr] at hh
      linarith
    have hrep : f64round t = t := by
      apply f64round_eq_self t hts ((2 * ⌊t⌋ + 1) * 2 ^ (51 - Int.log 2 t).toNat)
      push_cast
      rw [← zpow_natCast (2 : ℚ) (51 - Int.log 2 t).toNat,
        Int.toNat_of_nonneg (by omega), mul_assoc, ← zpow_add₀ (two_ne_zero)]
      have hz : 51 - Int.log 2 t + (Int.log 2 t - 52) = -1 := by ring
      rw [hz, zpow_neg_one]
      have hfin : (2 * (⌊t⌋ : ℚ) + 1) * 2⁻¹ = (⌊t⌋ : ℚ) + 1 / 2 := by ring
      rw [hfin, hflo]
    rw [hrep]
  · have hfr12 : Int.fract (t + 1 / 2) = (((s + 20000) % 40000 : ℕ) : ℚ) / 40000 := by
      have hh : t + 1 / 2 = ((s + 20000 : ℕ) : ℚ) / 40000 := by
        rw [ht]
        push_cast
        ring
      rw [hh, fract_natCast_div40000]
    have hm1 : 1 ≤ (s + 20000) % 40000 := by omega
    have hm2 : (s + 20000) % 40000 ≤ 39999 := by omega
    have hfl : (1 : ℚ) / 40000 ≤ Int.fract (t + 1 / 2) := by
      rw [hfr12]
      have hc : (1 : ℚ) ≤ (((s + 20000) % 40000 : ℕ) : ℚ) := by exact_mod_cast hm1
      linarith
    have hfu : Int.fract (t + 1 / 2) ≤ (39999 : ℚ) / 40000 := by
      rw [hfr12]
      have hc : (((s + 20000) % 40000 : ℕ) : ℚ) ≤ (39999 : ℚ) := by exact_mod_cast hm2
      linarith
    have hk := Int.floor_add_fract (t + 1 / 2)
    have habs := abs_le.1 herr2
    rw [Int.floor_eq_iff]
    constructor
    · linarith
    · linarith

/-- CLAIM C10 (amended).  The estimated track duration is the f64-computed
round(size / 40000) — u64-to-f64 conversion, f64 division, rounding half
away from zero — which for every positive byte size below 2^53 equals the
exact round(size / 40000), alias (size + 20000) / 40000 in natural
division; the duration is 0 at byte size 0, and a 100000-byte file (exact
quotient 2.5) yields 3.  Above 2^53 the inexact conversion can shift the
result (see the counterexample). -/
theorem duration_estimate_spec (s : Nat) :
    (0 < s → s < 2 ^ 53 →
      ((durationOfSize s : ℤ) = round ((s : ℚ) / 40000)
        ∧ durationOfSize s = (s + 20000) / 40000))
  ∧ durationOfSize 0 = 0
  ∧ durationOfSize 100000 = 3 := by
  have key : ∀ t : Nat, 0 < t → t < 2 ^ 53 →
      (durationOfSize t : ℤ) = round ((t : ℚ) / 40000)
        ∧ durationOfSize t = (t + 20000) / 40000 := by
    intro t h1 h2
    have hd : durationOfSize t = (⌊(t : ℚ) / 40000 + 1 / 2⌋).toNat := by
      rw [durationOfSize, if_pos h1, f64round_natCast t h1 h2, f64_division_round t h1 h2]
    have hr : ⌊(t : ℚ) / 40000 + 1 / 2⌋ = (((t + 20000) / 40000 : ℕ) : ℤ) := by
      rw [← round_eq]
      exact round_natCast_div40000 t
    constructor
    · rw [hd, hr, Int.toNat_natCast, round_natCast_div40000 t]
    · rw [hd, hr, Int.toNat_natCast]
  refine ⟨key s, by simp [durationOfSize], ?_⟩
  simpa using (key 100000 (by norm_num) (by norm_num)).2

/-- Witness for the amended C10 at the claim's concrete sizes. -/
theorem duration_estimate_spec_witness :
    (durationOfSize 100000 : ℤ) = round ((100000 : ℚ) / 40000)
  ∧ durationOfSize 0 = 0 :=
  ⟨(by exact_mod_cast ((duration_estimate_spec 100000).1 (by norm_num) (by norm_num)).1),
   (duration_estimate_spec 0).2.1⟩

/-- CLAIM C10, counterexample.  At byte size 9007199254779999, just above
2^53, the claim fails: the u64-to-f64 conversion is inexact and rounds
(ties to even) up to 9007199254780000, the f64 division by 40000.0 is then
exactly the representable 225179981369.5, and rounding half away from zero
gives 225179981370 — while round of the exact quotient 225179981369.499975
is 225179981369. -/
theorem duration_f64_counterexample :
    durationOfSize 9007199254779999 = 225179981370
  ∧ round ((9007199254779999 : ℚ) / 40000) = 225179981369
  ∧ (225179981370 : ℤ) ≠ 225179981369 := by
  refine ⟨?_, ?_, by decide⟩
  · rw [durationOfSize, if_pos (by norm_num)]
    have hc : ((9007199254779999 : ℕ) : ℚ) = (9007199254779999 : ℚ) := by norm_num
    rw [hc]
    have hlog1 : Int.log 2 (9007199254779999 : ℚ) = 53 := by
      apply int_log2_eq _ _ (by norm_num)
      · have hh : (53 : ℤ) = ((53 : ℕ) : ℤ) := by norm_num
        rw [hh, zpow_natCast]
        norm_num
      · have hh : (53 : ℤ) + 1 = ((54 : ℕ) : ℤ) := by norm_num
        rw [hh, zpow_natCast]
        norm_num
    have hf1 : f64round (9007199254779999 : ℚ) = 9007199254780000 := by
      have hfl : ⌊(9007199254779999 : ℚ) / 2⌋ = 4503599627389999 := by
        rw [Int.floor_eq_iff]
        norm_num
      have hfr : Int.fract ((9007199254779999 : ℚ) / 2) = 1 / 2 := by
        simp only [Int.fract, hfl]
        norm_num
      have hrt : roundTiesEven ((9007199254779999 : ℚ) / 2) = 4503599627390000 := by
        rw [roundTiesEven, hfr, hfl]
        norm_num
      rw [f64round, if_neg (by norm_num), hlog1]
      have he : (2 : ℚ) ^ ((53 : ℤ) - 52) = 2 := by
        have hh : (53 : ℤ) - 52 = ((1 : ℕ) : ℤ) := by norm_num
        rw [hh, zpow_natCast]
        norm_num
      rw [he, hrt]
      norm_num
    rw [hf1]
    have hq : (9007199254780000 : ℚ) / 40000 = 450359962739 / 2 := by norm_num
    rw [hq]
    have hlog2 : Int.log 2 ((450359962739 : ℚ) / 2) = 37 := by
      apply int_log2_eq _ _ (by norm_num)
      · have hh : (37 : ℤ) = ((37 : ℕ) : ℤ) := by norm_num
        rw [hh, zpow_natCast]
        norm_num
      · have hh : (37 : ℤ) + 1 = ((38 : ℕ) : ℤ) := by norm_num
        rw [hh, zpow_natCast]
        norm_num
    have hf2 : f64round ((450359962739 : ℚ) / 2) = (450359962739 : ℚ) / 2 := by
      apply f64round_eq_self _ (by norm_num) (450359962739 * 16384)
      rw [hlog2]
      have he : (2 : ℚ) ^ ((37 : ℤ) - 52) = 1 / 32768 := by
        have hh : (37 : ℤ) - 52 = -((15 : ℕ) : ℤ) := by norm_num
        rw [hh, zpow_neg, zpow_natCast]
        norm_num
      rw [he]
      push_cast
      norm_num
    rw [hf2]
    have hfin : (450359962739 : ℚ) / 2 + 1 / 2 = ((225179981370 : ℤ) : ℚ) := by
      push_cast
      norm_num
    rw [hfin, Int.floor_intCast]
    rfl
  · have hc : ((9007199254779999 : ℕ) : ℚ) = (9007199254779999 : ℚ) := by norm_num
    rw [← hc, round_natCast_div40000]
    norm_num

/-- Head of a dropWhile never satisfies the predicate. -/
theorem dropWhile_head_false {α : Type} (p : α → Bool) :
    ∀ (l : List α) (c : α), (l.dropWhile p).head? = some c → p c = false := by
  intro l
  induction l with
  | nil =>
    intro c h
    simp [List.dropWhile] at h
  | cons x xs ih =>
    intro c h
    by_cases hx : p x = true
    · rw [List.dropWhile_cons_of_pos hx] at h
      exact ih c h
    · rw [List.dropWhile_cons_of_neg hx] at h
      simp only [List.head?_cons, Option.some.injEq] at h
      subst h
      simpa using hx

/-- Decimal digits of the title regex are never ASCII-alphabetic: the Nd
blocks are the ASCII digits 48-57 and blocks at 1632 and above, all outside
65-122. -/
theorem nd_not_alpha (c : Char) (h : isNd c = true) :
    isAsciiAlpha c = false := by
  simp only [isNd, List.any_eq_true, Bool.and_eq_true, decide_eq_true_eq] at h
  obtain ⟨s, hs, hlo, hhi⟩ := h
  have hcases : s = 48 ∨ 1632 ≤ s := by
    have hall : ∀ x ∈ ndRangeStarts, x = 48 ∨ 1632 ≤ x := by decide
    exact hall s hs
  have h2 : ¬ isAsciiAlpha c = true := by
    simp only [isAsciiAlpha, Bool.or_eq_true, Bool.and_eq_true, decide_eq_true_eq]
    omega
  simpa using h2

/-- Captures of a successful title match decompose the title into the
alphabetic prefix, the nonempty Unicode-digit run, and a remainder that does
not start with a digit. -/
theorem leadingMatch_decomp (cs ap an : List Char)
    (h : leadingMatch? cs = some (ap, an)) :
    ∃ rest, cs = ap ++ an ++ rest
      ∧ (∀ c ∈ ap, isAsciiAlpha c = true)
      ∧ (∀ c ∈ an, isNd c = true)
      ∧ an ≠ []
      ∧ (∀ c, rest.head? = some c → isNd c = false) := by
  simp only [leadingMatch?] at h
  split at h
  · exact absurd h (by simp)
  · rename_i hn
    simp only [Option.some.injEq, Prod.mk.injEq] at h
    obtain ⟨hap, han⟩ := h
    subst hap
    subst han
    refine ⟨(cs.dropWhile isAsciiAlpha).dropWhile isNd, ?_, ?_, ?_, hn, ?_⟩
    · rw [List.append_assoc, List.takeWhile_append_dropWhile, List.takeWhile_append_dropWhile]
    · exact fun c hc => List.mem_takeWhile_imp hc
    · exact fun c hc => List.mem_takeWhile_imp hc
    · exact fun c hc => dropWhile_head_false _ _ c hc

/-- The anchored pattern fails on a title exactly when the title has no
decomposition into an ASCII-alphabetic prefix followed by a nonempty run of
Unicode decimal digits followed by anything. -/
theorem leadingMatch_none_iff (cs : List Char) :
    leadingMatch? cs = none ↔
      ¬ ∃ ap an rest, cs = ap ++ an ++ rest
          ∧ (∀ c ∈ ap, isAsciiAlpha c = true)
          ∧ an ≠ [] ∧ (∀ c ∈ an, isNd c = true) := by
  have sub : ∀ (ap : List Char), (∀ c ∈ ap, isAsciiAlpha c = true) →
      ∀ (an rest : List Char), an ≠ [] → (∀ c ∈ an, isNd c = true) →
      ((ap ++ an ++ rest).dropWhile isAsciiAlpha).takeWhile isNd ≠ [] := by
    intro ap
    induction ap with
    | nil =>
      intro _ an rest hne hd
      cases an with
      | nil => exact absurd rfl hne
      | cons c an2 =>
        have hc : isNd c = true := hd c (by simp)
        have hca : isAsciiAlpha c = false := nd_not_alpha c hc
        rw [List.nil_append, List.cons_append,
          List.dropWhile_cons_of_neg (by simp [hca]), List.takeWhile_cons_of_pos hc]
        simp
    | cons x ap2 ih =>
      intro hap an rest hne hd
      have hx : isAsciiAlpha x = true := hap x (by simp)
      rw [List.cons_append, List.cons_append, List.dropWhile_cons_of_pos hx]
      exact ih (fun c hc => hap c (by simp [hc])) an rest hne hd
  constructor
  · intro hnone hex
    obtain ⟨ap, an, rest, hcs, hap, hne, hd⟩ := hex
    have : ((ap ++ an ++ rest).dropWhile isAsciiAlpha).takeWhile isNd ≠ [] :=
      sub ap hap an rest hne hd
    rw [← hcs] at this
    simp only [leadingMatch?] at hnone
    split at hnone
    · rename_i h0
      exact this h0
    · exact absurd hnone (by simp)
  · intro hnex
    cases heq : leadingMatch? cs with
    | none => rfl
    | some pr =>
      obtain ⟨ap, an⟩ := pr
      obtain ⟨rest, hcs, hap, hd, hne, _⟩ := leadingMatch_decomp cs ap an heq
      exact absurd ⟨ap, an, rest, hcs, hap, hne, hd⟩ hnex

/-- CLAIM C4 (amended).  For two titles that both match the anchored pattern
of an ASCII-alphabetic prefix (possibly empty) immediately followed by a run
of Unicode decimal digits (\d is \p{Nd}), the comparator compares the
prefixes lexicographically and, on equal prefixes, the digit runs as 64-bit
unsigned integers: a run containing a non-ASCII decimal digit, or whose
value does not fit in 64 bits, fails the parse and is treated as 0.  If
either title fails to match, the raw titles are compared lexicographically.
The match is characterized against the pattern itself, the claim's sorting
examples hold, and a title with an Arabic-Indic digit matches the pattern
and has its run parsed to 0. -/
theorem natural_order_spec :
    (∀ a b : Song, ∀ ap an bp bn : List Char,
      leadingMatch? a.title.data = some (ap, an) →
      leadingMatch? b.title.data = some (bp, bn) →
      natural_order a b =
        (match lexCmp ap bp with
         | .eq => compare (u64OrZero an) (u64OrZero bn)
         | o => o))
  ∧ (∀ a b : Song,
      leadingMatch? a.title.data = none ∨ leadingMatch? b.title.data = none →
      natural_order a b = lexCmp a.title.data b.title.data)
  ∧ (∀ cs ap an, leadingMatch? cs = some (ap, an) →
      ∃ rest, cs = ap ++ an ++ rest
        ∧ (∀ c ∈ ap, isAsciiAlpha c = true)
        ∧ (∀ c ∈ an, isNd c = true)
        ∧ an ≠ []
        ∧ (∀ c, rest.head? = some c → isNd c = false))
  ∧ (∀ cs, leadingMatch? cs = none ↔
      ¬ ∃ ap an rest, cs = ap ++ an ++ rest
          ∧ (∀ c ∈ ap, isAsciiAlpha c = true)
          ∧ an ≠ [] ∧ (∀ c ∈ an, isNd c = true))
  ∧ (sortByCmp natural_order [mkSong "track2", mkSong "track10", mkSong "track1"]).map
      Song.title = ["track1", "track2", "track10"]
  ∧ (sortByCmp natural_order [mkSong "b2", mkSong "a10"]).map Song.title = ["a10", "b2"]
  ∧ natOrderTitle "intro" "track1" = Ordering.lt
  ∧ leadingMatch? "a٣".data = some (['a'], ['٣'])
  ∧ natural_order (mkSong "a٣") (mkSong "a5") = Ordering.lt := by
  refine ⟨?_, ?_, leadingMatch_decomp, leadingMatch_none_iff, by decide, by decide,
    by decide, by decide, by decide⟩
  · intro a b ap an bp bn h1 h2
    unfold natural_order natOrderTitle
    rw [h1, h2]
  · intro a b h
    rcases h with h | h
    · rcases h2 : leadingMatch? b.title.data with _ | ⟨bp, bn⟩ <;>
        simp [natural_order, natOrderTitle, h, h2]
    · rcases h2 : leadingMatch? a.title.data with _ | ⟨ap, an⟩ <;>
        simp [natural_order, natOrderTitle, h, h2]

/-- Witness for C4 at concrete titles: equal prefixes, digit runs 9 and 10
compared numerically. -/
theorem natural_order_spec_witness :
    natural_order (mkSong "track9") (mkSong "track10") = Ordering.lt := by
  have h := natural_order_spec.1 (mkSong "track9") (mkSong "track10")
    "track".data ['9'] "track".data ['1', '0'] (by decide) (by decide)
  rw [h]
  decide

/-- CLAIM C4, counterexample.  The claim reads the digit runs as unsigned
integers: on the titles "a18446744073709551616" and "a2" (equal prefixes,
first digit run equal to 2^64) that comparison yields gt, but the source's
u64 parse fails on the first run, unwrap_or turns it into 0, and the
comparator answers lt. -/
theorem natural_order_overflow_counterexample :
    natural_order (mkSong "a18446744073709551616") (mkSong "a2") = Ordering.lt
  ∧ specNatOrderTitle "a18446744073709551616" "a2" = Ordering.gt
  ∧ digitsVal "18446744073709551616".data = 2 ^ 64 :=
  ⟨by decide, by decide, by decide⟩

/-- Inserting with a comparator grows the length by one. -/
theorem insertCmp_length {α : Type} (cmp : α → α → Ordering) (x : α) :
    ∀ l : List α, (insertCmp cmp x l).length = l.length + 1 := by
  intro l
  induction l with
  | nil => rfl
  | cons y ys ih => cases h : cmp x y <;> simp [insertCmp, h, ih]

/-- Sorting by a comparator preserves the length. -/
theorem sortByCmp_length {α : Type} (cmp : α → α → Ordering) :
    ∀ l : List α, (sortByCmp cmp l).length = l.length := by
  intro l
  induction l with
  | nil => rfl
  | cons y ys ih => simp [sortByCmp, insertCmp_length, ih]

/-- A loaded album has a cover exactly when some direct file entry is a
cover reference. -/
theorem load_album_cover_isSome (d : FsDir) :
    (load_album d).cover.isSome = d.files.any fileIsCover := by
  rw [Bool.eq_iff_iff]
  simp only [load_album, Option.isSome_map', List.find?_isSome, List.any_eq_true]

/-- A qualifying file yields a song and a non-qualifying one does not. -/
theorem songOfFile_isSome (f : FileEnt) :
    (songOfFile? f).isSome = fileIsAudio f := by
  cases hre : rustExt? f.name with
  | none => simp [songOfFile?, fileIsAudio, hre]
  | some e =>
    simp only [songOfFile?, fileIsAudio, hre]
    split <;> rename_i hsp
    · simp [hsp]
    · simp only [Bool.not_eq_true] at hsp
      simp [hsp]

/-- A loaded album has no songs exactly when no direct file entry
qualifies as a track. -/
theorem load_album_songs_isEmpty (d : FsDir) :
    (load_album d).songs.isEmpty = !d.files.any fileIsAudio := by
  have h2 : ∀ f : FileEnt, songOfFile? f = none ↔ fileIsAudio f = false := by
    intro f
    rw [← songOfFile_isSome f]
    cases songOfFile? f <;> simp
  rw [Bool.eq_iff_iff]
  simp only [load_album, List.isEmpty_iff_length_eq_zero, sortByCmp_length,
    List.length_eq_zero, List.filterMap_eq_nil_iff, Bool.not_eq_true', List.any_eq_false,
    Bool.not_eq_true]
  constructor
  · intro h f hf
    exact (h2 f).1 (h f hf)
  · intro h f hf
    exact (h2 f).2 (h f hf)

/-- CLAIM C5.  The catalog loader first builds a candidate from the
directory's direct file entries; when the candidate has a cover reference (a
file whose lowercased name starts with "cover.") or at least one track whose
lowercased extension is in the audio whitelist, the directory is emitted as
a single leaf collection and its subdirectories are not descended; otherwise
the loader recurses into each direct subdirectory in enumeration order and
concatenates the results, subtrees yielding no collections contributing
nothing. -/
theorem load_albums_spec (d : FsDir) :
    load_albums d =
      (if d.files.any fileIsCover || d.files.any fileIsAudio
       then [load_album d]
       else (d.subs.map load_albums).flatten)
  ∧ (load_album d).cover.isSome = d.files.any fileIsCover
  ∧ (load_album d).songs.isEmpty = !d.files.any fileIsAudio := by
  refine ⟨?_, load_album_cover_isSome d, load_album_songs_isEmpty d⟩
  cases d with
  | mk n fs subs =>
    rw [load_albums.eq_1, load_album_cover_isSome, load_album_songs_isEmpty]
    simp only [FsDir.files, FsDir.subs, Bool.not_not, List.attach_map_val]

/-- Witness for C5 at a concrete two-level tree: the root has no cover and
no audio file, so the loader recurses and finds the leaf subdirectory. -/
theorem load_albums_spec_witness :
    load_albums (.mk "root" [⟨"notes.txt", 7⟩]
        [.mk "sub" [⟨"cover.JPG", 0⟩, ⟨"t1.mp3", 40000⟩] []]) =
      (if ([⟨"notes.txt", 7⟩] : List FileEnt).any fileIsCover
          || ([⟨"notes.txt", 7⟩] : List FileEnt).any fileIsAudio
       then [load_album (.mk "root" [⟨"notes.txt", 7⟩]
          [.mk "sub" [⟨"cover.JPG", 0⟩, ⟨"t1.mp3", 40000⟩] []])]
       else ([FsDir.mk "sub" [⟨"cover.JPG", 0⟩, ⟨"t1.mp3", 40000⟩] []].map
          load_albums).flatten) :=
  (load_albums_spec (.mk "root" [⟨"notes.txt", 7⟩]
    [.mk "sub" [⟨"cover.JPG", 0⟩, ⟨"t1.mp3", 40000⟩] []])).1

/-- Appending succeeds when every source decodes, extending the queue and
touching nothing else of the sink. -/
theorem appendSongs_ok (dec : String → Bool) :
    ∀ (l : List Song) (s : Sink), (∀ x ∈ l, dec x.path = true) →
      appendSongs dec l s = .ok { s with queue := s.queue ++ l } := by
  intro l
  induction l with
  | nil =>
    intro s h
    simp [appendSongs]
  | cons x xs ih =>
    intro s h
    have hx : dec x.path = true := h x (by simp)
    rw [appendSongs.eq_2, if_pos hx, ih _ (fun y hy => h y (by simp [hy]))]
    simp

/-- A failing build leaves the pre-build state except for playing_album and
state, which were already set. -/
theorem insert_build_error (now : Nat) (dec : String → Bool) (a0 : App) (e : String)
    (h : (insert_build now dec a0).2 = some e) :
    (insert_build now dec a0).1 =
      { a0 with playing_album := some a0.selected_index, state := AppState.Playing } := by
  simp only [insert_build] at h ⊢
  split at h
  · rfl
  · rename_i s heq
    simp at h

/-- CLAIM C1 (amended).  When opening or decoding a source fails during the
channel build, no partial channel is installed and the clock fields keep the
values they had at the start of the build, but the operation is not atomic:
for Insert, playing_album and state have already been set to the target
album (and a different previously playing album has already been ejected,
its channel torn down), the error propagating to the caller without a
status message being set by the operation itself; for SkipTo of the already
playing album, whose mutations all follow the build, the state is returned
entirely unchanged. -/
theorem build_failure_spec (now : Nat) (dec : String → Bool) (a : App) (e : String) :
    ((insert_album now dec a).2 = some e →
      (insert_album now dec a).1 =
        { preEject now a with
          playing_album := some a.selected_index
          state := AppState.Playing })
  ∧ (a.playing_album = some a.selected_index → (skip_to_song now dec a).2 = some e →
      (skip_to_song now dec a).1 = a) := by
  constructor
  · intro h
    cases hpa : a.playing_album with
    | none =>
      simp only [insert_album, hpa] at h ⊢
      simp only [preEject, hpa]
      exact insert_build_error now dec a e h
    | some cur =>
      by_cases hne : cur ≠ a.selected_index
      · simp only [insert_album, hpa, if_pos hne] at h ⊢
        simp only [preEject, hpa, if_pos hne]
        have hsel : (eject_current_album now a).selected_index = a.selected_index := by
          simp [eject_current_album, hpa, set_message]
        rw [← hsel]
        exact insert_build_error now dec _ e h
      · simp only [insert_album, hpa, if_neg hne] at h
        simp at h
  · intro hpa h
    have hstep : (if a.playing_album ≠ some a.selected_index
        then insert_album now dec a else (a, none)) = (a, none) := by
      rw [if_neg (by simp [hpa])]
    revert h
    simp only [skip_to_song, hstep]
    split
    · intro h
      exact absurd h (by simp)
    · split
      · intro _
        rfl
      · intro h
        exact absurd h (by simp)

/-- Witness for the amended C1 at a concrete failing build: inserting
albumA when nothing plays with an oracle that rejects every path. -/
theorem build_failure_spec_witness :
    (insert_album 0 (fun _ => false) browsingApp).1 =
      { preEject 0 browsingApp with
        playing_album := some browsingApp.selected_index
        state := AppState.Playing } :=
  (build_failure_spec 0 (fun _ => false) browsingApp "t1.mp3").1 (by decide)

/-- CLAIM C1, counterexample.  Inserting albumA from the browsing state
with a failing decoder returns an error, yet the session is not left in its
previous state: playing_album has moved from none to some 0 and state to
Playing, and no status message is set. -/
theorem build_failure_counterexample :
    ¬ insertFailureAtomic 0 (fun _ => false) browsingApp := by
  intro h
  have h2 := h (by decide)
  exact absurd h2.1 (by decide)

/-- CLAIM C2 (amended).  The speed keys only adjust the stored RPM value —
increase adds 1.0 capped at 78.0, decrease subtracts 1.0 floored at 33.33 —
and set a status message; the audio channel, the pause state and every
clock field are untouched (no rebuild and no clock reset take place), so the
effective elapsed time read at any instant is trivially unchanged, and at
the caps the RPM value itself stays equal with only the message changing. -/
theorem speed_ops_spec (now : Nat) (a : App) :
    increase_speed now a = { a with
      playback_speed := min (a.playback_speed + 1) 78
      current_message := some (.speedMsg (min (a.playback_speed + 1) 78))
      message_time := some now }
  ∧ decrease_speed now a = { a with
      playback_speed := max (a.playback_speed - 1) (3333 / 100)
      current_message := some (.speedMsg (max (a.playback_speed - 1) (3333 / 100)))
      message_time := some now }
  ∧ (increase_speed now a).current_sink = a.current_sink
  ∧ (increase_speed now a).paused = a.paused
  ∧ (increase_speed now a).pause_duration = a.pause_duration
  ∧ (increase_speed now a).playback_start = a.playback_start
  ∧ (∀ t, current_elapsed t (increase_speed now a) = current_elapsed t a)
  ∧ (decrease_speed now a).current_sink = a.current_sink
  ∧ (∀ t, current_elapsed t (decrease_speed now a) = current_elapsed t a) :=
  ⟨rfl, rfl, rfl, rfl, rfl, rfl, fun _ => rfl, rfl, fun _ => rfl⟩

/-- Witness for the amended C2 at a concrete state and instant. -/
theorem speed_ops_spec_witness :
    (increase_speed 5 browsingApp).current_sink = browsingApp.current_sink
  ∧ (increase_speed 5 browsingApp).paused = browsingApp.paused :=
  ⟨(speed_ops_spec 5 browsingApp).2.2.1, (speed_ops_spec 5 browsingApp).2.2.2.1⟩

/-- CLAIM C2, counterexample.  In the paused session pausedApp (accumulated
pause 3), raising the speed changes the stored RPM to a different value, yet
the session stays paused with its accumulated pause intact: the channel is
not rebuilt and the clock is not reset, contradicting the claimed SetSpeed
semantics. -/
theorem speed_change_counterexample : ¬ speedChangeRebuilds 10 pausedApp := by
  intro h
  have hsp : (increase_speed 10 pausedApp).playback_speed = 3433 / 100 := by
    show min (pausedApp.playback_speed + 1) 78 = 3433 / 100
    norm_num [pausedApp]
  have h2 := h (by rw [hsp]; norm_num [pausedApp])
  have hpd : (increase_speed 10 pausedApp).paused = true := rfl
  exact Bool.noConfusion (h2.2.1.symm.trans hpd)

/-- CLAIM C6 (amended).  Insert of the already active collection is a no-op;
Insert with a different active collection first ejects it and proceeds as an
insert from the ejected state (so a single optional playing album exists at
any point); Insert from the idle state with all sources decoding builds a
fresh channel holding all the collection's tracks from track 0 — at the
sink's default speed 1, the stored RPM value not being applied to the
channel — sets track index 0, resets every clock field and reports. -/
theorem insert_album_spec (now : Nat) (dec : String → Bool) (a : App) :
    (a.playing_album = some a.selected_index → insert_album now dec a = (a, none))
  ∧ (∀ cur, a.playing_album = some cur → cur ≠ a.selected_index →
      insert_album now dec a = insert_album now dec (eject_current_album now a))
  ∧ (a.playing_album = none →
      (∀ s ∈ (a.albums.getD a.selected_index default).songs, dec s.path = true) →
      insert_album now dec a =
        (set_message { a with
            playing_album := some a.selected_index
            state := AppState.Playing
            playback_start := some now
            pause_duration := 0
            paused := false
            pause_start := none
            current_song_index := 0
            song_sel := some 0
            current_sink := some { queue := (a.albums.getD a.selected_index default).songs
                                   volume := a.volume
                                   speed := 1
                                   playing := true } }
          now (.inserted ((a.albums.getD a.selected_index default).name)), none)) := by
  refine ⟨?_, ?_, ?_⟩
  · intro hpa
    simp [insert_album, hpa]
  · intro cur hpa hne
    have hej : (eject_current_album now a).playing_album = none := by
      simp [eject_current_album, hpa, set_message]
    simp [insert_album, hpa, hej, hne]
  · intro hpa hdec
    have happ := appendSongs_ok dec (a.albums.getD a.selected_index default).songs Sink.new hdec
    simp only [insert_album, hpa, insert_build, happ]
    simp [Sink.new, set_message]

/-- Witness for the amended C6: inserting the already playing (empty) album
is a no-op. -/
theorem insert_album_spec_witness :
    insert_album 0 (fun _ => true) emptyAlbumApp = (emptyAlbumApp, none) :=
  (insert_album_spec 0 (fun _ => true) emptyAlbumApp).1 rfl

/-- CLAIM C6, counterexample.  With the stored speed raised to 34.33 RPM
(factor 34.33/33 under the spec's scaling), inserting albumA from the idle
state builds a channel whose speed is the sink default 1: the current speed
factor is not applied to the channel. -/
theorem insert_speed_counterexample :
    ¬ insertBuildsAtSpeed 0 (fun _ => true) speedyApp := by
  intro h
  obtain ⟨s, hs, _, hsp, _⟩ := h rfl
  have hval : (insert_album 0 (fun _ => true) speedyApp).1.current_sink =
      some { queue := [songT], volume := 1, speed := 1, playing := true } := by decide
  rw [hval] at hs
  injection hs with hs2
  rw [← hs2] at hsp
  have : (1 : ℚ) = speed_factor speedyApp.playback_speed := hsp
  rw [speed_factor] at this
  norm_num [speedyApp, browsingApp] at this

/-- CLAIM C7 (amended).  A SkipTo whose song index is out of range for the
selected album returns silently: no status message is set and nothing
further changes — in particular, when the selected album is already the
playing one the state is returned exactly as it was; when it is not, the
auto-insert has already replaced the session state (and reset the song
selection) before the bounds check, and that inserted state is kept. -/
theorem skip_out_of_range_spec (now : Nat) (dec : String → Bool) (a : App) :
    (a.playing_album = some a.selected_index →
      a.song_sel.getD 0 ≥ (a.albums.getD a.selected_index default).songs.length →
      skip_to_song now dec a = (a, none))
  ∧ (a.playing_album ≠ some a.selected_index → (insert_album now dec a).2 = none →
      (insert_album now dec a).1.song_sel.getD 0 ≥
        ((insert_album now dec a).1.albums.getD
          (insert_album now dec a).1.selected_index default).songs.length →
      skip_to_song now dec a = ((insert_album now dec a).1, none)) := by
  constructor
  · intro hpa hoob
    have hstep : (if a.playing_album ≠ some a.selected_index
        then insert_album now dec a else (a, none)) = (a, none) := by
      rw [if_neg (by simp [hpa])]
    simp only [skip_to_song, hstep]
    rw [if_pos hoob]
  · intro hpa herr hoob
    have hstep : (if a.playing_album ≠ some a.selected_index
        then insert_album now dec a else (a, none)) = insert_album now dec a :=
      if_pos hpa
    rcases hres : insert_album now dec a with ⟨a1, e1⟩
    rw [hres] at herr hoob
    have he : e1 = none := herr
    subst he
    have hoob2 : a1.song_sel.getD 0 ≥
        (a1.albums.getD a1.selected_index default).songs.length := hoob
    simp only [skip_to_song, hres, if_pos hpa, if_pos hoob2]

/-- Witness for the amended C7: skipping at selection 0 in the playing empty
album returns the state unchanged with no message. -/
theorem skip_out_of_range_spec_witness :
    skip_to_song 5 (fun _ => true) emptyAlbumApp = (emptyAlbumApp, none) :=
  (skip_out_of_range_spec 5 (fun _ => true) emptyAlbumApp).1 rfl (by decide)

/-- CLAIM C7, counterexample.  Skipping in the playing empty album albumE at
the (out-of-range) initial selection 0 leaves the session unchanged but sets
no status message at all: the out-of-range condition is not reported. -/
theorem skip_out_of_range_counterexample :
    ¬ skipOutOfRangeReported 5 (fun _ => true) emptyAlbumApp := by
  intro h
  have h2 := h (by decide)
  exact absurd h2.2.2.2.2.2 (by decide)

/-- CLAIM C8 (amended).  Eject from the active state tears down the channel,
returns to browsing, clears every clock field (start instant, paused flag,
pause-start instant, accumulated pause) and reports; the track-index field
current_song_index is left at its previous value, being reset only by the
next insert or skip.  Eject when nothing plays changes nothing. -/
theorem eject_spec (now : Nat) (a : App) :
    (a.playing_album = none → eject_current_album now a = a)
  ∧ (∀ idx, a.playing_album = some idx →
      eject_current_album now a = { a with
        state := AppState.Browsing
        playing_album := none
        playback_start := none
        pause_duration := 0
        paused := false
        pause_start := none
        current_sink := none
        current_message := some (.ejected ((a.albums.getD idx default).name))
        message_time := some now })
  ∧ (∀ idx, a.playing_album = some idx →
      (eject_current_album now a).current_song_index = a.current_song_index) := by
  refine ⟨?_, ?_, ?_⟩
  · intro h
    simp [eject_current_album, h]
  · intro idx h
    simp [eject_current_album, h, set_message]
  · intro idx h
    simp [eject_current_album, h, set_message]

/-- Witness for the amended C8: ejecting when nothing plays is a no-op. -/
theorem eject_spec_witness :
    eject_current_album 7 browsingApp = browsingApp :=
  (eject_spec 7 browsingApp).1 rfl

/-- CLAIM C8, counterexample.  Ejecting the session that plays the second
track of albumB returns to browsing and clears the clock, but the track
index stays 1 instead of being cleared. -/
theorem eject_keeps_index_counterexample : ¬ ejectClearsIndex 0 skippedApp := by
  intro h
  have h2 := h (by decide)
  exact absurd h2.2.2.2.1 (by decide)

/-- The element find? returns satisfies the predicate, and every position
before it fails the predicate. -/
theorem find_min {α : Type} (p : α → Bool) :
    ∀ (l : List α) (x : α), l.find? p = some x →
      ∃ i, ∃ hi : i < l.length, l.get ⟨i, hi⟩ = x ∧ p x = true
        ∧ ∀ j, ∀ hj : j < l.length, j < i → p (l.get ⟨j, hj⟩) = false := by
  intro l
  induction l with
  | nil =>
    intro x h
    simp at h
  | cons y ys ih =>
    intro x h
    by_cases hy : p y = true
    · rw [List.find?_cons_of_pos _ hy] at h
      injection h with h2
      subst h2
      exact ⟨0, by simp, rfl, hy, fun j hj hj0 => absurd hj0 (by omega)⟩
    · rw [List.find?_cons_of_neg _ hy] at h
      obtain ⟨i, hi, hg, hp, hmin⟩ := ih x h
      refine ⟨i + 1, by simpa using Nat.succ_lt_succ hi, hg, hp, ?_⟩
      intro j hj hj0
      cases j with
      | zero => simpa using hy
      | succ k => exact hmin k (by simp at hj; omega) (by omega)

/-- With no album bookmarked, a candidate scan finds nothing: in-range
indices read an unbookmarked album and out-of-range indices the default
album, whose flag is false. -/
theorem no_bookmark_find_none (albums : List Album)
    (hb : ∀ alb ∈ albums, alb.bookmarked = false) (l : List Nat) :
    l.find? (bookmarkedAt albums) = none := by
  rw [List.find?_eq_none]
  intro x _
  simp only [bookmarkedAt, Bool.not_eq_true, List.getD_eq_getElem?_getD]
  cases hx : albums[x]? with
  | none => rfl
  | some alb =>
    obtain ⟨h1, h2⟩ := List.getElem?_eq_some_iff.1 hx
    exact hb alb (h2 ▸ List.getElem_mem h1)

/-- CLAIM C9.  Forward (respectively backward) bookmark search from index
start over the catalog selects the bookmarked index at the smallest positive
circular offset forward (respectively backward), wrapping around; with six
collections and bookmarks at indices 2 and 5 the forward search visits
0 to 2 to 5 to 2 and the backward search 0 to 5 to 2 to 5; and when no
collection is bookmarked the scan completes its full cycle finding nothing
and the operations leave the whole state unchanged. -/
theorem bookmark_search_spec (albums : List Album) (start : Nat)
    (h : start < albums.length) :
    (∀ i, next_bookmark_idx albums start = some i →
      i < albums.length ∧ bookmarkedAt albums i = true ∧
      ∃ d, 1 ≤ d ∧ d ≤ albums.length ∧ i = (start + d) % albums.length ∧
        ∀ e, 1 ≤ e → e < d →
          bookmarkedAt albums ((start + e) % albums.length) = false)
  ∧ (∀ i, prev_bookmark_idx albums start = some i →
      i < albums.length ∧ bookmarkedAt albums i = true ∧
      ∃ d, 1 ≤ d ∧ d ≤ albums.length ∧
        i = (start + albums.length - d) % albums.length ∧
        ∀ e, 1 ≤ e → e < d →
          bookmarkedAt albums ((start + albums.length - e) % albums.length) = false)
  ∧ ((∀ alb ∈ albums, alb.bookmarked = false) →
      next_bookmark_idx albums start = none ∧ prev_bookmark_idx albums start = none)
  ∧ (∀ now b, (∀ alb ∈ b.albums, alb.bookmarked = false) →
      next_bookmark now b = b ∧ prev_bookmark now b = b)
  ∧ (next_bookmark_idx alb6 0 = some 2 ∧ next_bookmark_idx alb6 2 = some 5
      ∧ next_bookmark_idx alb6 5 = some 2 ∧ prev_bookmark_idx alb6 0 = some 5
      ∧ prev_bookmark_idx alb6 5 = some 2 ∧ prev_bookmark_idx alb6 2 = some 5) := by
  have hlen : 0 < albums.length := by omega
  refine ⟨?_, ?_, ?_, ?_, by decide⟩
  · intro i hi
    obtain ⟨k, hk, hg, hp, hmin⟩ := find_min (bookmarkedAt albums) _ i hi
    simp only [List.get_eq_getElem, List.getElem_map, List.getElem_range] at hg hmin
    have hk2 : k < albums.length := by simpa using hk
    refine ⟨?_, hp, k + 1, by omega, by omega, hg.symm, ?_⟩
    · rw [← hg]
      exact Nat.mod_lt _ hlen
    · intro e he hed
      have hres := hmin (e - 1) (by simpa using (by omega : e - 1 < albums.length))
        (by omega)
      rwa [Nat.sub_add_cancel he] at hres
  · intro i hi
    obtain ⟨k, hk, hg, hp, hmin⟩ := find_min (bookmarkedAt albums) _ i hi
    simp only [List.get_eq_getElem, List.getElem_map, List.getElem_range] at hg hmin
    have hk2 : k < albums.length := by simpa using hk
    refine ⟨?_, hp, k + 1, by omega, by omega, hg.symm, ?_⟩
    · rw [← hg]
      exact Nat.mod_lt _ hlen
    · intro e he hed
      have hres := hmin (e - 1) (by simpa using (by omega : e - 1 < albums.length))
        (by omega)
      rwa [Nat.sub_add_cancel he] at hres
  · intro hb
    exact ⟨no_bookmark_find_none albums hb _, no_bookmark_find_none albums hb _⟩
  · intro now b hb
    have h1 : next_bookmark_idx b.albums b.selected_index = none :=
      no_bookmark_find_none b.albums hb _
    have h2 : prev_bookmark_idx b.albums b.selected_index = none :=
      no_bookmark_find_none b.albums hb _
    constructor
    · unfold next_bookmark
      split
      · rfl
      · rw [h1]
    · unfold prev_bookmark
      split
      · rfl
      · rw [h2]

/-- Witness for C9 at the six-album catalog with bookmarks at 2 and 5:
forward search from 0 finds 2, backward search from 0 finds 5. -/
theorem bookmark_search_spec_witness :
    next_bookmark_idx alb6 0 = some 2 ∧ prev_bookmark_idx alb6 0 = some 5 :=
  ⟨(bookmark_search_spec alb6 0 (by decide)).2.2.2.2.1,
   (bookmark_search_spec alb6 0 (by decide)).2.2.2.2.2.2.2.1⟩
